import Mathlib

/-!
# Verification of the LuckFox scripts

Shallow embeddings of the Python scripts in the LuckFox repository, together
with theorems settling the specification claims about them.  Bytes are
modelled as `Nat`, byte strings as `List Nat`, Python `int` as `Int`/`Nat`,
floating-point sensor voltages as `ℚ`, and the outcome of each sysfs / serial
I/O operation as an explicit oracle argument.
-/

namespace LuckFox

/-! ## src/Rust/SpeedTest/function_call.py -/

/-- `quad_res(n, m)` from `function_call.py`: returns 1 when `n` is a
quadratic residue modulo `m` (with `m > 0`), else 0.  Python `%` on a
positive modulus agrees with `Int.emod`. -/
def quad_res (n m : Int) : Nat :=
  if m ≤ 0 then 0
  else
    let n_to_check : Int := (n % m + m) % m
    if (List.range m.toNat).any (fun i => ((i : Int) * i) % m == n_to_check) then 1 else 0

/-! ## src/74HC4051.py -/

/-- The three MUX selector GPIO lines S0, S1, S2 (`SELECTOR_PINS = [64, 65, 66]`). -/
def SELECTOR_PINS : List Nat := [64, 65, 66]

/-- `gpio_set_value(pin, value)` from `74HC4051.py`, with the success of the
sysfs write given by the oracle `writeOk` and the write attempts accumulated
in `log`.  A value other than 0/1 is rejected without touching sysfs. -/
def gpio_set_value (writeOk : Nat → Nat → Bool) (pin value : Nat)
    (log : List (Nat × Nat)) : Bool × List (Nat × Nat) :=
  if ¬(value = 0 ∨ value = 1) then (false, log)
  else (writeOk pin value, log ++ [(pin, value)])

/-- `select_mux_channel(channel)` from `74HC4051.py`: validates the range,
extracts the three bits of the channel number and writes them to S0, S1, S2
in order, short-circuiting on the first failed write. -/
def select_mux_channel (writeOk : Nat → Nat → Bool) (channel : Int) :
    Bool × List (Nat × Nat) :=
  if ¬(0 ≤ channel ∧ channel ≤ 7) then (false, [])
  else
    let c := channel.toNat
    let s0_val := (c >>> 0) &&& 1
    let s1_val := (c >>> 1) &&& 1
    let s2_val := (c >>> 2) &&& 1
    let r0 := gpio_set_value writeOk (SELECTOR_PINS[0]!) s0_val []
    if ¬ r0.1 then (false, r0.2)
    else
      let r1 := gpio_set_value writeOk (SELECTOR_PINS[1]!) s1_val r0.2
      if ¬ r1.1 then (false, r1.2)
      else
        let r2 := gpio_set_value writeOk (SELECTOR_PINS[2]!) s2_val r1.2
        if ¬ r2.1 then (false, r2.2)
        else (true, r2.2)

lemma and_one_eq_zero_or_one (n : Nat) : n &&& 1 = 0 ∨ n &&& 1 = 1 := by
  rw [Nat.and_one_is_mod]
  exact Nat.mod_two_eq_zero_or_one n

/-- C4: `quad_res(n, m)` returns 1 iff some `i` with `0 ≤ i < m` squares to the
non-negative residue of `n` mod `m`; it returns 0 for `m ≤ 0`, and its value
is always 0 or 1. -/
theorem quad_res_spec :
    (∀ n m : Int, 0 < m →
      (quad_res n m = 1 ↔
        ∃ i : Int, 0 ≤ i ∧ i < m ∧ (i * i) % m = (n % m + m) % m)) ∧
    (∀ n m : Int, m ≤ 0 → quad_res n m = 0) ∧
    (∀ n m : Int, quad_res n m = 0 ∨ quad_res n m = 1) := by
  refine ⟨?_, ?_, ?_⟩
  · intro n m hm
    have hm' : ¬ m ≤ 0 := not_le.mpr hm
    simp only [quad_res, if_neg hm']
    constructor
    · intro h
      by_cases hany :
          ((List.range m.toNat).any
            (fun i => ((i : Int) * i) % m == (n % m + m) % m)) = true
      · rcases List.any_eq_true.mp hany with ⟨i, hi, heq⟩
        refine ⟨(i : Int), by positivity, ?_, ?_⟩
        · have : i < m.toNat := List.mem_range.mp hi
          omega
        · exact_mod_cast beq_iff_eq.mp heq
      · rw [if_neg hany] at h
        exact absurd h (by decide)
    · rintro ⟨i, hi0, him, heq⟩
      have hmem : i.toNat ∈ List.range m.toNat := by
        refine List.mem_range.mpr ?_
        omega
      have hany : ((List.range m.toNat).any
          (fun j => ((j : Int) * j) % m == (n % m + m) % m)) = true := by
        refine List.any_eq_true.mpr ⟨i.toNat, hmem, ?_⟩
        refine beq_iff_eq.mpr ?_
        have hcast : ((i.toNat : Int)) = i := Int.toNat_of_nonneg hi0
        rw [hcast]
        exact heq
      rw [if_pos hany]
  · intro n m hm
    simp [quad_res, hm]
  · intro n m
    by_cases hm : m ≤ 0
    · left
      simp [quad_res, hm]
    · simp only [quad_res, if_neg hm]
      by_cases hany :
          ((List.range m.toNat).any
            (fun i => ((i : Int) * i) % m == (n % m + m) % m)) = true
      · right
        rw [if_pos hany]
      · left
        rw [if_neg hany]

/-- Witness for C4: 2 is a quadratic residue mod 7 (3*3 = 9 ≡ 2). -/
theorem quad_res_spec_witness :
    quad_res 2 7 = 1 ∧ (0 : Int) < 7 ∧
      ∃ i : Int, 0 ≤ i ∧ i < 7 ∧ (i * i) % 7 = ((2 : Int) % 7 + 7) % 7 := by
  have h7 : (0 : Int) < 7 := by decide
  have hex : ∃ i : Int, 0 ≤ i ∧ i < 7 ∧ (i * i) % 7 = ((2 : Int) % 7 + 7) % 7 :=
    ⟨3, by decide, by decide, by decide⟩
  exact ⟨(quad_res_spec.1 2 7 h7).mpr hex, h7, hex⟩

/-- C2: for `0 ≤ c ≤ 7`, `select_mux_channel` attempts to write bit 0 of `c`
to S0 (GPIO 64), bit 1 to S1 (GPIO 65), bit 2 to S2 (GPIO 66); it returns
`true` exactly when all three GPIO writes succeed, in which case the write
log is exactly those three writes in order; outside 0..7 it returns `false`
having written nothing. -/
theorem select_mux_channel_spec :
    (∀ (w : Nat → Nat → Bool) (c : Int), 0 ≤ c → c ≤ 7 →
      ((select_mux_channel w c).1 = true ↔
        (w 64 ((c.toNat >>> 0) &&& 1) = true ∧
         w 65 ((c.toNat >>> 1) &&& 1) = true ∧
         w 66 ((c.toNat >>> 2) &&& 1) = true)) ∧
      ((select_mux_channel w c).1 = true →
        (select_mux_channel w c).2 =
          [(64, (c.toNat >>> 0) &&& 1),
           (65, (c.toNat >>> 1) &&& 1),
           (66, (c.toNat >>> 2) &&& 1)])) ∧
    (∀ (w : Nat → Nat → Bool) (c : Int), ¬(0 ≤ c ∧ c ≤ 7) →
      select_mux_channel w c = (false, [])) := by
  constructor
  · intro w c h0 h7
    interval_cases c <;>
      simp [select_mux_channel, gpio_set_value, SELECTOR_PINS] <;>
        split_ifs <;> simp_all
  · intro w c hrange
    simp [select_mux_channel, hrange]

/-- Witness for C2: channel 5 with an always-succeeding oracle writes
S0=1, S1=0, S2=1 and returns true; channel 9 is rejected. -/
theorem select_mux_channel_spec_witness :
    (select_mux_channel (fun _ _ => true) 5).1 = true ∧
    (select_mux_channel (fun _ _ => true) 5).2 = [(64, 1), (65, 0), (66, 1)] ∧
    select_mux_channel (fun _ _ => true) 9 = (false, []) := by
  have h1 := (select_mux_channel_spec.1 (fun _ _ => true) 5 (by decide) (by decide)).1.mpr
    ⟨rfl, rfl, rfl⟩
  have h2 := (select_mux_channel_spec.1 (fun _ _ => true) 5 (by decide) (by decide)).2 h1
  have h3 := select_mux_channel_spec.2 (fun _ _ => true) 9 (by decide)
  refine ⟨h1, ?_, h3⟩
  rw [h2]
  decide

/-! ## src/MQTT/status_reporter2.py — connection loop -/

/-- `max_connection_attempts = 5` from `status_reporter2.py`. -/
def max_connection_attempts : Nat := 5

/-- Outcome of the connection loop: either connected after `callsMade`
`connect()` calls, or gave up after `callsMade` failed calls. -/
inductive ConnOutcome
  | connected (callsMade : Nat)
  | exitFailure (callsMade : Nat)
deriving DecidableEq, Repr

/-- The `while not mqtt_client.is_connected() and connection_attempts <
max_connection_attempts` loop of `status_reporter2.py`: `connects k` tells
whether the `k`-th (0-based) connect attempt establishes a connection
(exceptions and timeouts count as `false`).  On success the loop breaks
before incrementing the counter. -/
def connectionLoop (connects : Nat → Bool) (connection_attempts : Nat) : ConnOutcome :=
  if h : connection_attempts < max_connection_attempts then
    if connects connection_attempts then ConnOutcome.connected (connection_attempts + 1)
    else connectionLoop connects (connection_attempts + 1)
  else ConnOutcome.exitFailure connection_attempts
termination_by max_connection_attempts - connection_attempts
decreasing_by omega

/-- After the connection loop, `status_reporter2.py` either calls
`sys.exit(1)` (when still unconnected) or falls through into the publish
loop. -/
inductive ReporterPhase
  | exitWithCode (code : Nat)
  | publishLoop
deriving DecidableEq, Repr

/-- The `if not mqtt_client.is_connected(): sys.exit(1)` gate between the
connection loop and the publish loop of `status_reporter2.py`. -/
def statusReporterMain (connects : Nat → Bool) : ReporterPhase :=
  match connectionLoop connects 0 with
  | ConnOutcome.exitFailure _ => ReporterPhase.exitWithCode 1
  | ConnOutcome.connected _ => ReporterPhase.publishLoop

lemma connectionLoop_unfold (connects : Nat → Bool) (a : Nat) :
    connectionLoop connects a =
      if a < max_connection_attempts then
        (if connects a then ConnOutcome.connected (a + 1)
         else connectionLoop connects (a + 1))
      else ConnOutcome.exitFailure a := by
  rw [connectionLoop]
  split <;> simp_all

lemma connectionLoop_spec_aux (connects : Nat → Bool) :
    ∀ (fuel a : Nat), a + fuel = max_connection_attempts →
      (∀ k, connectionLoop connects a = ConnOutcome.connected k →
        a < k ∧ k ≤ max_connection_attempts ∧ connects (k - 1) = true ∧
          ∀ j, a ≤ j → j < k - 1 → connects j = false) ∧
      (∀ k, connectionLoop connects a = ConnOutcome.exitFailure k →
        k = max_connection_attempts ∧
          ∀ j, a ≤ j → j < max_connection_attempts → connects j = false) := by
  intro fuel
  induction fuel with
  | zero =>
    intro a ha
    have ha' : a = max_connection_attempts := by omega
    rw [connectionLoop_unfold, if_neg (by omega)]
    constructor
    · intro k hk
      exact absurd hk (by simp)
    · intro k hk
      have : k = a := by
        cases hk
        rfl
      exact ⟨by omega, fun j hj hj' => by omega⟩
  | succ n ih =>
    intro a ha
    have haLt : a < max_connection_attempts := by omega
    rw [connectionLoop_unfold, if_pos haLt]
    cases hc : connects a with
    | true =>
      constructor
      · intro k hk
        have hka : k = a + 1 := by
          cases hk
          rfl
        subst hka
        exact ⟨by omega, by omega, by simpa using hc, fun j hj hj' => by omega⟩
      · intro k hk
        exact absurd hk (by simp)
    | false =>
      have hih := ih (a + 1) (by omega)
      constructor
      · intro k hk
        obtain ⟨h1, h2, h3, h4⟩ := hih.1 k hk
        refine ⟨by omega, h2, h3, ?_⟩
        intro j hj hj'
        rcases Nat.eq_or_lt_of_le hj with hja | hja
        · rw [← hja]
          exact hc
        · exact h4 j (by omega) hj'
      · intro k hk
        obtain ⟨h1, h2⟩ := hih.2 k hk
        refine ⟨h1, ?_⟩
        intro j hj hj'
        rcases Nat.eq_or_lt_of_le hj with hja | hja
        · rw [← hja]
          exact hc
        · exact h2 j (by omega) hj'

/-- C6: the connection loop makes at most 5 connect attempts, stops at the
first successful one, and if all 5 fail the script reaches `sys.exit(1)`
without ever entering the publish loop. -/
theorem status_reporter2_connection_spec :
    ∀ connects : Nat → Bool,
      (∀ k, connectionLoop connects 0 = ConnOutcome.connected k →
        1 ≤ k ∧ k ≤ max_connection_attempts ∧ connects (k - 1) = true ∧
          ∀ j, j < k - 1 → connects j = false) ∧
      (∀ k, connectionLoop connects 0 = ConnOutcome.exitFailure k →
        k = max_connection_attempts) ∧
      (statusReporterMain connects = ReporterPhase.exitWithCode 1 ↔
        ∀ j, j < max_connection_attempts → connects j = false) := by
  intro connects
  have haux := connectionLoop_spec_aux connects max_connection_attempts 0 (by omega)
  refine ⟨?_, ?_, ?_⟩
  · intro k hk
    obtain ⟨h1, h2, h3, h4⟩ := haux.1 k hk
    exact ⟨h1, h2, h3, fun j hj => h4 j (Nat.zero_le j) hj⟩
  · intro k hk
    exact (haux.2 k hk).1
  · constructor
    · intro hmain j hj
      unfold statusReporterMain at hmain
      cases hloop : connectionLoop connects 0 with
      | connected k =>
        rw [hloop] at hmain
        exact absurd hmain (by simp)
      | exitFailure k =>
        exact (haux.2 k hloop).2 j (Nat.zero_le j) hj
    · intro hall
      unfold statusReporterMain
      cases hloop : connectionLoop connects 0 with
      | connected k =>
        obtain ⟨h1, h2, h3, h4⟩ := haux.1 k hloop
        exact absurd h3 (by simp [hall (k - 1) (by omega)])
      | exitFailure k => rfl

/-- Witness for C6: with an oracle that succeeds on the third attempt the
loop connects after 3 calls; with an always-failing oracle the script exits
with code 1. -/
theorem status_reporter2_connection_spec_witness :
    connectionLoop (fun k => k == 2) 0 = ConnOutcome.connected 3 ∧
    (3 ≤ max_connection_attempts ∧ (fun k : Nat => k == 2) 2 = true ∧
      ∀ j, j < 2 → (fun k : Nat => k == 2) j = false) ∧
    statusReporterMain (fun _ => false) = ReporterPhase.exitWithCode 1 := by
  have hloop : connectionLoop (fun k => k == 2) 0 = ConnOutcome.connected 3 := by
    rw [connectionLoop_unfold, connectionLoop_unfold, connectionLoop_unfold]
    norm_num [max_connection_attempts]
  have hspec := (status_reporter2_connection_spec (fun k => k == 2)).1 3 hloop
  have hexit := (status_reporter2_connection_spec (fun _ => false)).2.2.mpr
    (fun j _ => rfl)
  exact ⟨hloop, ⟨hspec.2.1, hspec.2.2.1, fun j hj => hspec.2.2.2 j (by omega)⟩, hexit⟩

/-! ## src/CSI_Camera/luckfox_b_file_ops.py — padding and conversion -/

/-- `process_local_image_ffmpeg` from `luckfox_b_file_ops.py`, reduced to
its file-level effect: `fileExists`/`contents` describe the local raw file,
`actual_file_size` is the size the caller passes in.  The first component
is the file after the optional zero-padding step; the second records
whether control reaches the FFmpeg invocation. -/
def process_local_image_ffmpeg (fileExists : Bool) (contents : List Nat)
    (cap_width cap_height actual_file_size : Nat) : List Nat × Bool :=
  if ¬fileExists = true ∨ actual_file_size = 0 then (contents, false)
  else
    let y_plane_size := cap_width * cap_height
    let uv_plane_effective_height := (cap_height + 1) / 2
    let uv_plane_size := cap_width * uv_plane_effective_height
    let ffmpeg_expected_size := y_plane_size + uv_plane_size
    if actual_file_size < ffmpeg_expected_size then
      (contents ++ List.replicate (ffmpeg_expected_size - actual_file_size) 0, true)
    else
      (contents, true)

/-- C7: with `E = w*h + w*((h+1)/2)` computed in exact integer arithmetic,
the padding step appends exactly `E - s` zero bytes when `s < E`, leaves
the file untouched when `s ≥ E` (never truncating), and the FFmpeg
conversion is reached exactly when the file exists and `s > 0`. -/
theorem process_local_image_ffmpeg_spec :
    ∀ (fe : Bool) (contents : List Nat) (w h s : Nat),
      ((process_local_image_ffmpeg fe contents w h s).2 = true ↔
        (fe = true ∧ s ≠ 0)) ∧
      (fe = true → s ≠ 0 → s < w * h + w * ((h + 1) / 2) →
        (process_local_image_ffmpeg fe contents w h s).1 =
          contents ++ List.replicate (w * h + w * ((h + 1) / 2) - s) 0) ∧
      (fe = true → s ≠ 0 → w * h + w * ((h + 1) / 2) ≤ s →
        (process_local_image_ffmpeg fe contents w h s).1 = contents) ∧
      (∃ tail, (process_local_image_ffmpeg fe contents w h s).1 = contents ++ tail) := by
  intro fe contents w h s
  have hearly : ∀ hcond : ¬fe = true ∨ s = 0,
      process_local_image_ffmpeg fe contents w h s = (contents, false) := by
    intro hcond
    unfold process_local_image_ffmpeg
    rw [if_pos hcond]
  have hpad : fe = true → s ≠ 0 → s < w * h + w * ((h + 1) / 2) →
      (process_local_image_ffmpeg fe contents w h s) =
        (contents ++ List.replicate (w * h + w * ((h + 1) / 2) - s) 0, true) := by
    intro hfe hs hlt
    unfold process_local_image_ffmpeg
    rw [if_neg (by simp [hfe, hs]), if_pos hlt]
  have hnopad : fe = true → s ≠ 0 → w * h + w * ((h + 1) / 2) ≤ s →
      (process_local_image_ffmpeg fe contents w h s) = (contents, true) := by
    intro hfe hs hge
    unfold process_local_image_ffmpeg
    rw [if_neg (by simp [hfe, hs]), if_neg (by omega)]
  refine ⟨?_, ?_, ?_, ?_⟩
  · constructor
    · intro htrue
      by_contra hnot
      have hcond : ¬fe = true ∨ s = 0 := by tauto
      rw [hearly hcond] at htrue
      simp at htrue
    · rintro ⟨hfe, hs⟩
      by_cases hlt : s < w * h + w * ((h + 1) / 2)
      · rw [hpad hfe hs hlt]
      · rw [hnopad hfe hs (by omega)]
  · intro hfe hs hlt
    rw [hpad hfe hs hlt]
  · intro hfe hs hge
    rw [hnopad hfe hs hge]
  · by_cases hcond : ¬fe = true ∨ s = 0
    · exact ⟨[], by rw [hearly hcond, List.append_nil]⟩
    · push_neg at hcond
      by_cases hlt : s < w * h + w * ((h + 1) / 2)
      · exact ⟨_, by rw [hpad hcond.1 hcond.2 hlt]⟩
      · exact ⟨[], by rw [hnopad hcond.1 hcond.2 (by omega), List.append_nil]⟩

/-- Witness for C7: a 4×3 NV12 frame needs E = 4*3 + 4*2 = 20 bytes; an
18-byte file gets exactly 2 zero bytes appended, a 20-byte one is kept. -/
theorem process_local_image_ffmpeg_spec_witness :
    (process_local_image_ffmpeg true (List.replicate 18 7) 4 3 18).1 =
      List.replicate 18 7 ++ List.replicate 2 0 ∧
    (process_local_image_ffmpeg true (List.replicate 20 7) 4 3 20).1 =
      List.replicate 20 7 ∧
    (process_local_image_ffmpeg true (List.replicate 18 7) 4 3 18).2 = true ∧
    (process_local_image_ffmpeg false [] 4 3 18).2 = false := by
  have h1 := (process_local_image_ffmpeg_spec true (List.replicate 18 7) 4 3 18).2.1
    rfl (by decide) (by decide)
  have h2 := (process_local_image_ffmpeg_spec true (List.replicate 20 7) 4 3 20).2.2.1
    rfl (by decide) (by decide)
  have h3 := ((process_local_image_ffmpeg_spec true (List.replicate 18 7) 4 3 18).1).mpr
    ⟨rfl, by decide⟩
  refine ⟨?_, h2, h3, ?_⟩
  · rw [h1]
  · decide

/-! ## src/74HC4051.py — main program interrupt handling -/

/-- The pins the main program of `74HC4051.py` manages
(`pins_to_manage = SELECTOR_PINS`). -/
def pins_to_manage : List Nat := SELECTOR_PINS

/-- How the body of the `try:` block in `74HC4051.py`'s main program ends:
normally (user quit / EOF), by a KeyboardInterrupt, by a generic exception
(e.g. the RuntimeError raised when GPIO setup fails), or by SystemExit from
`sys.exit` inside `gpio_export`. -/
inductive BodyOutcome
  | normal
  | keyboardInterrupt
  | genericException
  | systemExit (code : Nat)
deriving DecidableEq, Repr

/-- Which body outcomes still propagate after the
`except KeyboardInterrupt` / `except Exception` handlers of `74HC4051.py`
have run (SystemExit does not derive from Exception, so it propagates). -/
def propagatedAfterHandlers (body : BodyOutcome) : Option BodyOutcome :=
  match body with
  | BodyOutcome.normal => none
  | BodyOutcome.keyboardInterrupt => none
  | BodyOutcome.genericException => none
  | BodyOutcome.systemExit c => some (BodyOutcome.systemExit c)

/-- The `try/except/finally` skeleton of `74HC4051.py`'s main program:
whatever way the body ends, the `finally` block runs
`for pin in pins_to_manage: gpio_unexport(pin)`.  Returns the sequence of
`gpio_unexport` calls and the exception (if any) escaping the program. -/
def main_74HC4051 (body : BodyOutcome) : List Nat × Option BodyOutcome :=
  let unexport_calls := pins_to_manage.foldl (fun calls pin => calls ++ [pin]) []
  (unexport_calls, propagatedAfterHandlers body)

/-- C8: however the main body of `74HC4051.py` ends — in particular on a
KeyboardInterrupt during setup or the main loop — the cleanup pass runs
`gpio_unexport` on every one of the three selector pins, and a
KeyboardInterrupt is caught so the program terminates normally. -/
theorem main_74HC4051_cleanup_spec :
    ∀ body : BodyOutcome,
      (main_74HC4051 body).1 = SELECTOR_PINS ∧
      (∀ pin ∈ SELECTOR_PINS, pin ∈ (main_74HC4051 body).1) ∧
      (main_74HC4051 BodyOutcome.keyboardInterrupt).2 = none := by
  intro body
  refine ⟨?_, ?_, rfl⟩
  · rfl
  · intro pin hpin
    simpa [main_74HC4051, pins_to_manage] using hpin

/-- Witness for C8: an interrupt leads to unexporting GPIOs 64, 65, 66 and
no escaping exception. -/
theorem main_74HC4051_cleanup_spec_witness :
    main_74HC4051 BodyOutcome.keyboardInterrupt = ([64, 65, 66], none) ∧
    (main_74HC4051 BodyOutcome.keyboardInterrupt).1 = SELECTOR_PINS := by
  exact ⟨by decide, (main_74HC4051_cleanup_spec BodyOutcome.keyboardInterrupt).1⟩

/-! ## src/CSI_Camera/luckfox_b_serial_ops.py — expect_prompt -/

/-- The membership test `prompt_bytes_item in received_buffer` run by
`expect_prompt` over its prompt list (Python `bytes.__contains__` is
substring containment). -/
def anyPromptIn (prompts : List (List Nat)) (buffer : List Nat) : Bool :=
  prompts.any (fun p => decide (p <:+: buffer))

/-- `expect_prompt` from `luckfox_b_serial_ops.py`: `chunks` are the
successive non-empty byte chunks the serial line delivers before the
timeout expires.  The initial buffer is checked first; then each chunk is
appended to the buffer, which is re-checked; exhausting the chunks models
the timeout and yields `none`. -/
def expect_prompt (prompts : List (List Nat)) (received_buffer : List Nat) :
    List (List Nat) → Option (List Nat)
  | [] =>
      if anyPromptIn prompts received_buffer then some received_buffer else none
  | byte_chunk :: rest =>
      if anyPromptIn prompts received_buffer then some received_buffer
      else expect_prompt prompts (received_buffer ++ byte_chunk) rest

lemma anyPromptIn_append_right (prompts : List (List Nat)) (buf c : List Nat)
    (h : anyPromptIn prompts buf = true) :
    anyPromptIn prompts (buf ++ c) = true := by
  rcases List.any_eq_true.mp h with ⟨p, hp, hpin⟩
  refine List.any_eq_true.mpr ⟨p, hp, ?_⟩
  rcases of_decide_eq_true hpin with ⟨s, t, hst⟩
  exact decide_eq_true ⟨s, t ++ c, by rw [← hst]; simp⟩

lemma expect_prompt_none_iff (prompts : List (List Nat)) :
    ∀ (chunks : List (List Nat)) (buf : List Nat),
      (expect_prompt prompts buf chunks = none ↔
        anyPromptIn prompts (buf ++ chunks.flatten) = false) := by
  intro chunks
  induction chunks with
  | nil =>
    intro buf
    cases hb : anyPromptIn prompts buf <;>
      simp [expect_prompt, hb]
  | cons c rest ih =>
    intro buf
    cases hb : anyPromptIn prompts buf with
    | true =>
      have hbig : anyPromptIn prompts (buf ++ (c ++ rest.flatten)) = true := by
        rw [← List.append_assoc]
        exact anyPromptIn_append_right _ _ _ (anyPromptIn_append_right _ _ _ hb)
      simp [expect_prompt, hb, hbig]
    | false =>
      rw [expect_prompt, if_neg (by simp [hb]), ih (buf ++ c),
        List.flatten_cons, ← List.append_assoc]

lemma expect_prompt_some (prompts : List (List Nat)) :
    ∀ (chunks : List (List Nat)) (buf : List Nat) (r : List Nat),
      expect_prompt prompts buf chunks = some r →
      anyPromptIn prompts r = true ∧
        ∃ k, r = buf ++ (chunks.take k).flatten ∧
          ∀ j, j < k →
            anyPromptIn prompts (buf ++ (chunks.take j).flatten) = false := by
  intro chunks
  induction chunks with
  | nil =>
    intro buf r hr
    cases hb : anyPromptIn prompts buf with
    | true =>
      rw [expect_prompt, if_pos hb] at hr
      cases hr
      exact ⟨hb, 0, by simp, fun j hj => absurd hj (by omega)⟩
    | false =>
      rw [expect_prompt, if_neg (by simp [hb])] at hr
      exact absurd hr (by simp)
  | cons c rest ih =>
    intro buf r hr
    cases hb : anyPromptIn prompts buf with
    | true =>
      rw [expect_prompt, if_pos hb] at hr
      cases hr
      exact ⟨hb, 0, by simp, fun j hj => absurd hj (by omega)⟩
    | false =>
      rw [expect_prompt, if_neg (by simp [hb])] at hr
      obtain ⟨hcontains, k, hk, hmin⟩ := ih (buf ++ c) r hr
      refine ⟨hcontains, k + 1, ?_, ?_⟩
      · rw [hk, List.take_succ_cons, List.flatten_cons, ← List.append_assoc]
      · intro j hj
        cases j with
        | zero => simpa using hb
        | succ j' =>
          rw [List.take_succ_cons, List.flatten_cons, ← List.append_assoc]
          exact hmin j' (by omega)

/-- C1: with a non-empty prompt list, `expect_prompt` returns a buffer only
if it contains one of the prompts; the returned buffer is the accumulated
buffer at the first point a prompt appears (no earlier accumulation
contains one); and it returns `none` exactly when no prompt ever appears
in the data arriving within the timeout. -/
theorem expect_prompt_spec :
    ∀ (prompts chunks : List (List Nat)) (initial_buffer : List Nat),
      prompts ≠ [] →
      (expect_prompt prompts initial_buffer chunks = none ↔
        anyPromptIn prompts (initial_buffer ++ chunks.flatten) = false) ∧
      (∀ r, expect_prompt prompts initial_buffer chunks = some r →
        anyPromptIn prompts r = true ∧
          ∃ k, r = initial_buffer ++ (chunks.take k).flatten ∧
            ∀ j, j < k →
              anyPromptIn prompts (initial_buffer ++ (chunks.take j).flatten) = false) := by
  intro prompts chunks initial_buffer _
  exact ⟨expect_prompt_none_iff prompts chunks initial_buffer,
    fun r hr => expect_prompt_some prompts chunks initial_buffer r hr⟩

/-- Witness for C1: waiting for the prompt byte `35` (`#`), the data
`[104,105]` then `[35,10]` is consumed up to the chunk holding the prompt,
while prompt-free data times out to `none`. -/
theorem expect_prompt_spec_witness :
    ([[35]] : List (List Nat)) ≠ [] ∧
    expect_prompt [[35]] [] [[104, 105], [35, 10]] = some [104, 105, 35, 10] ∧
    anyPromptIn [[35]] [104, 105, 35, 10] = true ∧
    expect_prompt [[35]] [] [[104, 105]] = none := by
  have hne : ([[35]] : List (List Nat)) ≠ [] := by decide
  have hsome : expect_prompt [[35]] [] [[104, 105], [35, 10]] =
      some [104, 105, 35, 10] := by decide
  have hcontains :=
    ((expect_prompt_spec [[35]] [[104, 105], [35, 10]] [] hne).2
      [104, 105, 35, 10] hsome).1
  have hnone : expect_prompt [[35]] [] [[104, 105]] = none :=
    (expect_prompt_spec [[35]] [[104, 105]] [] hne).1.mpr (by decide)
  exact ⟨hne, hsome, hcontains, hnone⟩

/-! ## src/74HC4051array.py — calibrate_background -/

/-- `NUM_CHANNELS = 8` from `74HC4051array.py`. -/
def NUM_CHANNELS : Nat := 8

/-- `calibrate_background` from `74HC4051array.py`: `select ch` is the
success of `select_mux_channel(ch)` and `read ch` the outcome of
`read_adc_voltage()` on channel `ch` (`none` models a failed read; the
Python code stores `math.nan` in that case, modelled as `none`).  Returns
the success flag together with the resulting value of the global
`background_voltages`. -/
def calibrate_background (select : Nat → Bool) (read : Nat → Option ℚ)
    (background_voltages : List (Option ℚ)) : Bool × List (Option ℚ) :=
  let temp_readings := (List.range NUM_CHANNELS).map
    (fun ch => if select ch then read ch else none)
  let successful_reads := (List.range NUM_CHANNELS).countP
    (fun ch => select ch && (read ch).isSome)
  if successful_reads = NUM_CHANNELS then (true, temp_readings)
  else (false, background_voltages)

/-- C9: `calibrate_background` returns `true` and replaces the global
background array exactly when selecting and reading all 8 channels
succeeded (the new array being just the 8 readings); on any failure it
returns `false` and leaves `background_voltages` completely unchanged. -/
theorem calibrate_background_spec :
    ∀ (select : Nat → Bool) (read : Nat → Option ℚ) (bg : List (Option ℚ)),
      ((calibrate_background select read bg).1 = true ↔
        ∀ ch, ch < NUM_CHANNELS → select ch = true ∧ (read ch).isSome = true) ∧
      ((calibrate_background select read bg).1 = true →
        (calibrate_background select read bg).2 =
          (List.range NUM_CHANNELS).map (fun ch => read ch)) ∧
      ((calibrate_background select read bg).1 = false →
        (calibrate_background select read bg).2 = bg) := by
  intro select read bg
  have hcount : ((List.range NUM_CHANNELS).countP
      (fun ch => select ch && (read ch).isSome) = NUM_CHANNELS) ↔
      ∀ ch, ch < NUM_CHANNELS → select ch = true ∧ (read ch).isSome = true := by
    constructor
    · intro h ch hch
      have hall := List.countP_eq_length.mp (by rw [h, List.length_range])
      have := hall ch (List.mem_range.mpr hch)
      simpa [Bool.and_eq_true] using this
    · intro h
      rw [List.countP_eq_length.mpr, List.length_range]
      intro ch hch
      have := h ch (List.mem_range.mp hch)
      simp [Bool.and_eq_true, this.1, this.2]
  have hdef : calibrate_background select read bg =
      if (List.range NUM_CHANNELS).countP
          (fun ch => select ch && (read ch).isSome) = NUM_CHANNELS
      then (true, (List.range NUM_CHANNELS).map
        (fun ch => if select ch then read ch else none))
      else (false, bg) := rfl
  refine ⟨?_, ?_, ?_⟩
  · rw [hdef]
    split_ifs with hc
    · simpa using hcount.mp hc
    · constructor
      · intro hcontra
        exact absurd hcontra (by simp)
      · intro hall
        exact absurd (hcount.mpr hall) hc
  · intro htrue
    rw [hdef] at htrue ⊢
    split_ifs with hc
    · have hall := hcount.mp hc
      simp only []
      refine List.map_congr_left ?_
      intro ch hch
      rw [if_pos (hall ch (List.mem_range.mp hch)).1]
    · exact absurd htrue (by simp [hc])
  · intro hfalse
    rw [hdef] at hfalse ⊢
    split_ifs with hc
    · exact absurd hfalse (by simp [hc])
    · rfl

/-- Witness for C9: with channel 3 failing to read, the background list is
unchanged and the result is false; with everything succeeding it is
replaced by the readings. -/
theorem calibrate_background_spec_witness :
    (calibrate_background (fun _ => true)
      (fun ch => if ch = 3 then none else some 1) [some 0]).2 = [some 0] ∧
    (calibrate_background (fun _ => true) (fun _ => some 1) [some 0]).1 = true ∧
    (calibrate_background (fun _ => true) (fun _ => some 1) [some 0]).2 =
      (List.range NUM_CHANNELS).map (fun _ => some 1) := by
  have hfail : (calibrate_background (fun _ => true)
      (fun ch => if ch = 3 then none else some 1) [some 0]).1 = false := by decide
  have h1 := (calibrate_background_spec (fun _ => true)
    (fun ch => if ch = 3 then none else some 1) [some 0]).2.2 hfail
  have h2 := (calibrate_background_spec (fun _ => true) (fun _ => some 1) [some 0]).1.mpr
    (fun ch _ => ⟨rfl, rfl⟩)
  have h3 := (calibrate_background_spec (fun _ => true) (fun _ => some 1) [some 0]).2.1 h2
  exact ⟨h1, h2, h3⟩

/-! ## src/CSI_Camera/luckfox_b_serial_ops.py — command echo stripping -/

/-- The byte values stripped by Python `bytes.strip()`:
space, tab, newline, carriage return, vertical tab, form feed. -/
def isPyByteSpace (b : Nat) : Bool :=
  b = 32 || b = 9 || b = 10 || b = 13 || b = 11 || b = 12

/-- Python `bytes.strip()`: drop ASCII whitespace from both ends. -/
def pyStrip (l : List Nat) : List Nat :=
  ((l.dropWhile isPyByteSpace).reverse.dropWhile isPyByteSpace).reverse

/-- Helper for `bytes.splitlines(keepends=True)`: `cur` is the reversed
current line; lines end at `\n` (10), `\r` (13) or `\r\n`, terminators
kept. -/
def splitlinesAux : List Nat → List Nat → List (List Nat)
  | cur, [] => if cur = [] then [] else [cur.reverse]
  | cur, 13 :: 10 :: rest => (cur.reverse ++ [13, 10]) :: splitlinesAux [] rest
  | cur, 13 :: rest => (cur.reverse ++ [13]) :: splitlinesAux [] rest
  | cur, 10 :: rest => (cur.reverse ++ [10]) :: splitlinesAux [] rest
  | cur, b :: rest => splitlinesAux (b :: cur) rest

/-- Python `bytes.splitlines(keepends=True)` (`output_before_prompt.splitlines(True)`). -/
def splitlines_keepends (l : List Nat) : List (List Nat) :=
  splitlinesAux [] l

lemma flatten_splitlinesAux :
    ∀ (cur l : List Nat), (splitlinesAux cur l).flatten = cur.reverse ++ l := by
  intro cur l
  induction cur, l using splitlinesAux.induct <;>
    simp_all [splitlinesAux]

lemma flatten_splitlines_keepends (l : List Nat) :
    (splitlines_keepends l).flatten = l := by
  simpa using flatten_splitlinesAux [] l

/-- The echo-stripping step at the end of `send_command_and_get_output`
(`luckfox_b_serial_ops.py`): `output_before_prompt` is the response with
the prompt already removed, `command_bytes` the command that was written.
If the stripped first line equals the stripped command, the first line is
dropped; otherwise — including when the command is only a substring of the
first line — the buffer is kept unchanged. -/
def strip_command_echo (output_before_prompt command_bytes : List Nat) : List Nat :=
  let output_lines := splitlines_keepends output_before_prompt
  let command_sent_stripped := pyStrip command_bytes
  match output_lines with
  | [] => output_before_prompt
  | first :: rest =>
    if pyStrip first = command_sent_stripped then rest.flatten
    else output_before_prompt

/-- C10: the command echo is removed only when the stripped first line is
byte-for-byte equal to the stripped command, in which case exactly that
first line is dropped (the output being first line ++ remainder); whenever
the stripped first line differs — e.g. the command occurs only as a proper
substring — the buffer is returned intact. -/
theorem strip_command_echo_spec :
    ∀ (output command : List Nat),
      (∀ first rest, splitlines_keepends output = first :: rest →
        output = first ++ rest.flatten ∧
        (pyStrip first = pyStrip command →
          strip_command_echo output command = rest.flatten) ∧
        (pyStrip first ≠ pyStrip command →
          strip_command_echo output command = output)) ∧
      (splitlines_keepends output = [] →
        strip_command_echo output command = output) := by
  intro output command
  constructor
  · intro first rest hsplit
    refine ⟨?_, ?_, ?_⟩
    · have := flatten_splitlines_keepends output
      rw [hsplit, List.flatten_cons] at this
      exact this.symm
    · intro heq
      unfold strip_command_echo
      rw [hsplit]
      simp only [if_pos heq]
    · intro hne
      unfold strip_command_echo
      rw [hsplit]
      simp only [if_neg hne]
  · intro hsplit
    unfold strip_command_echo
    rw [hsplit]

/-- Witness for C10: for output `b"ls -l\r\nfoo\n"` and command `b"ls\n"`,
the first line `b"ls -l\r\n"` contains the command as a proper substring
but is not equal to it after stripping, so the output is kept intact;
when the first line is exactly the echo `b"ls\r\n"` it is dropped. -/
theorem strip_command_echo_spec_witness :
    splitlines_keepends [108, 115, 32, 45, 108, 13, 10, 102, 111, 111, 10] =
      [[108, 115, 32, 45, 108, 13, 10], [102, 111, 111, 10]] ∧
    pyStrip [108, 115, 32, 45, 108, 13, 10] ≠ pyStrip [108, 115, 10] ∧
    strip_command_echo [108, 115, 32, 45, 108, 13, 10, 102, 111, 111, 10]
      [108, 115, 10] = [108, 115, 32, 45, 108, 13, 10, 102, 111, 111, 10] ∧
    strip_command_echo [108, 115, 13, 10, 102, 111, 111, 10] [108, 115, 10] =
      [102, 111, 111, 10] := by
  have hsplit : splitlines_keepends [108, 115, 32, 45, 108, 13, 10, 102, 111, 111, 10] =
      [[108, 115, 32, 45, 108, 13, 10], [102, 111, 111, 10]] := by decide
  have hne : pyStrip [108, 115, 32, 45, 108, 13, 10] ≠ pyStrip [108, 115, 10] := by decide
  have hkept := ((strip_command_echo_spec
    [108, 115, 32, 45, 108, 13, 10, 102, 111, 111, 10] [108, 115, 10]).1
    [108, 115, 32, 45, 108, 13, 10] [[102, 111, 111, 10]] hsplit).2.2 hne
  have hsplit2 : splitlines_keepends [108, 115, 13, 10, 102, 111, 111, 10] =
      [[108, 115, 13, 10], [102, 111, 111, 10]] := by decide
  have heq : pyStrip [108, 115, 13, 10] = pyStrip [108, 115, 10] := by decide
  have hdropped := ((strip_command_echo_spec
    [108, 115, 13, 10, 102, 111, 111, 10] [108, 115, 10]).1
    [108, 115, 13, 10] [[102, 111, 111, 10]] hsplit2).2.1 heq
  refine ⟨hsplit, hne, by simpa using hkept, by simpa using hdropped⟩

/-! ## src/74HC4051array.py — motion center-of-mass scan

Voltages are modelled as rationals; the `math.nan` marker used for invalid
channels is modelled as `none`. -/

/-- `DIFFERENCE_THRESHOLD = 0.1` volts from `74HC4051array.py`. -/
def DIFFERENCE_THRESHOLD : ℚ := 1 / 10

/-- One iteration of the `for i, diff in enumerate(current_diffs)` loop in
the main scanning loop of `74HC4051array.py`: the accumulator is
`(weighted_sum, total_abs_diff, significant_change_detected)`; a `none`
entry (NaN) is skipped. -/
def comStep (acc : ℚ × ℚ × Bool) (i : Nat) (d : Option ℚ) : ℚ × ℚ × Bool :=
  match d with
  | none => acc
  | some diff =>
    let abs_diff := |diff|
    if abs_diff > DIFFERENCE_THRESHOLD then
      (acc.1 + i * abs_diff, acc.2.1 + abs_diff, true)
    else acc

/-- The whole accumulation loop, `i` being the index of the first element. -/
def comScan (i : Nat) (acc : ℚ × ℚ × Bool) : List (Option ℚ) → ℚ × ℚ × Bool
  | [] => acc
  | d :: rest => comScan (i + 1) (comStep acc i d) rest

/-- The position computation after the loop:
`if significant_change_detected and total_abs_diff > 0:
current_position = weighted_sum / total_abs_diff`, else no position. -/
def motionPosition (current_diffs : List (Option ℚ)) : Option ℚ :=
  let r := comScan 0 (0, 0, false) current_diffs
  if r.2.2 = true ∧ r.2.1 > 0 then some (r.1 / r.2.1) else none

/-- Specification sum `sum(i * |d_i|)` over the channels whose absolute
difference exceeds the threshold, starting at index `i`. -/
def wsum (i : Nat) : List (Option ℚ) → ℚ
  | [] => 0
  | none :: rest => wsum (i + 1) rest
  | some d :: rest =>
      (if |d| > DIFFERENCE_THRESHOLD then (i : ℚ) * |d| else 0) + wsum (i + 1) rest

/-- Specification sum `sum(|d_i|)` over the channels whose absolute
difference exceeds the threshold. -/
def tsum : List (Option ℚ) → ℚ
  | [] => 0
  | none :: rest => tsum rest
  | some d :: rest => (if |d| > DIFFERENCE_THRESHOLD then |d| else 0) + tsum rest

/-- Whether some valid channel exceeds the threshold. -/
def hasSig : List (Option ℚ) → Bool
  | [] => false
  | none :: rest => hasSig rest
  | some d :: rest => decide (|d| > DIFFERENCE_THRESHOLD) || hasSig rest

lemma comScan_eq :
    ∀ (l : List (Option ℚ)) (i : Nat) (w t : ℚ) (s : Bool),
      comScan i (w, t, s) l = (w + wsum i l, t + tsum l, s || hasSig l) := by
  intro l
  induction l with
  | nil => intro i w t s; simp [comScan, wsum, tsum, hasSig]
  | cons d rest ih =>
    intro i w t s
    cases d with
    | none => simp [comScan, comStep, wsum, tsum, hasSig, ih]
    | some v =>
      by_cases hv : |v| > DIFFERENCE_THRESHOLD
      · simp only [comScan, comStep, if_pos hv, ih, wsum, tsum, hasSig]
        rw [decide_eq_true hv]
        refine Prod.ext ?_ (Prod.ext ?_ ?_)
        · simp only []
          ring
        · simp only []
          ring
        · simp
      · simp only [comScan, comStep, if_neg hv, ih, wsum, tsum, hasSig]
        rw [decide_eq_false hv]
        refine Prod.ext ?_ (Prod.ext ?_ ?_) <;> simp

lemma tsum_nonneg : ∀ l : List (Option ℚ), 0 ≤ tsum l := by
  intro l
  induction l with
  | nil => simp [tsum]
  | cons d rest ih =>
    cases d with
    | none => simpa [tsum] using ih
    | some v =>
      simp only [tsum]
      have h1 : (0 : ℚ) ≤ if |v| > DIFFERENCE_THRESHOLD then |v| else 0 := by
        split_ifs
        · exact abs_nonneg v
        · exact le_refl 0
      linarith

lemma wsum_nonneg : ∀ (l : List (Option ℚ)) (i : Nat), 0 ≤ wsum i l := by
  intro l
  induction l with
  | nil => intro i; simp [wsum]
  | cons d rest ih =>
    intro i
    cases d with
    | none => simpa [wsum] using ih (i + 1)
    | some v =>
      simp only [wsum]
      have h1 : (0 : ℚ) ≤ if |v| > DIFFERENCE_THRESHOLD then (i : ℚ) * |v| else 0 := by
        split_ifs
        · positivity
        · exact le_refl 0
      have h2 := ih (i + 1)
      positivity

lemma wsum_le_tsum :
    ∀ (l : List (Option ℚ)) (i : Nat) (B : ℚ), (i : ℚ) + l.length - 1 ≤ B → 0 ≤ B →
      wsum i l ≤ B * tsum l := by
  intro l
  induction l with
  | nil => intro i B _ _; simp [wsum, tsum]
  | cons d rest ih =>
    intro i B hB hB0
    have hlen : ((i : ℚ) + 1) + rest.length - 1 ≤ B := by
      simp only [List.length_cons] at hB
      push_cast at hB ⊢
      linarith
    cases d with
    | none =>
      simp only [wsum, tsum]
      exact ih (i + 1) B (by push_cast at hlen ⊢; linarith) hB0
    | some v =>
      simp only [wsum, tsum]
      have hrest := ih (i + 1) B (by push_cast at hlen ⊢; linarith) hB0
      have hiB : (i : ℚ) ≤ B := by
        have hl : (0 : ℚ) ≤ rest.length := by positivity
        simp only [List.length_cons] at hB
        push_cast at hB
        linarith
      split_ifs with hv
      · have habs : (0 : ℚ) ≤ |v| := abs_nonneg v
        have : (i : ℚ) * |v| ≤ B * |v| := mul_le_mul_of_nonneg_right hiB habs
        calc (i : ℚ) * |v| + wsum (i + 1) rest
            ≤ B * |v| + B * tsum rest := by linarith
          _ = B * (|v| + tsum rest) := by ring
      · simpa using hrest

lemma hasSig_tsum_pos : ∀ l : List (Option ℚ), hasSig l = true → 0 < tsum l := by
  intro l
  induction l with
  | nil => intro h; simp [hasSig] at h
  | cons d rest ih =>
    intro h
    cases d with
    | none =>
      simp only [hasSig] at h
      simpa [tsum] using ih h
    | some v =>
      simp only [hasSig, Bool.or_eq_true, decide_eq_true_eq] at h
      rcases h with hv | hrest
      · have h0 : (0 : ℚ) < DIFFERENCE_THRESHOLD := by norm_num [DIFFERENCE_THRESHOLD]
        have := tsum_nonneg rest
        simp only [tsum, if_pos hv]
        linarith
      · have := ih hrest
        have h1 : (0 : ℚ) ≤ if |v| > DIFFERENCE_THRESHOLD then |v| else 0 := by
          split_ifs
          · exact abs_nonneg v
          · exact le_refl 0
        simp only [tsum]
        linarith

lemma hasSig_iff_exists :
    ∀ l : List (Option ℚ),
      hasSig l = true ↔ ∃ d ∈ l, ∃ v, d = some v ∧ |v| > DIFFERENCE_THRESHOLD := by
  intro l
  induction l with
  | nil => simp [hasSig]
  | cons d rest ih =>
    cases d with
    | none =>
      simp only [hasSig, ih, List.mem_cons]
      constructor
      · rintro ⟨d, hd, v, hv, hgt⟩
        exact ⟨d, Or.inr hd, v, hv, hgt⟩
      · rintro ⟨d, hd | hd, v, hv, hgt⟩
        · exact absurd hv (by rw [hd]; simp)
        · exact ⟨d, hd, v, hv, hgt⟩
    | some u =>
      simp only [hasSig, Bool.or_eq_true, decide_eq_true_eq, ih, List.mem_cons]
      constructor
      · rintro (hu | ⟨d, hd, v, hv, hgt⟩)
        · exact ⟨some u, Or.inl rfl, u, rfl, hu⟩
        · exact ⟨d, Or.inr hd, v, hv, hgt⟩
      · rintro ⟨d, hd | hd, v, hv, hgt⟩
        · left
          rw [hd] at hv
          obtain hv' : u = v := by injection hv
          rw [hv']
          exact hgt
        · exact Or.inr ⟨d, hd, v, hv, hgt⟩

lemma motionPosition_eq (current_diffs : List (Option ℚ)) :
    motionPosition current_diffs =
      if hasSig current_diffs = true ∧ tsum current_diffs > 0 then
        some (wsum 0 current_diffs / tsum current_diffs)
      else none := by
  unfold motionPosition
  rw [comScan_eq]
  simp

/-- C5: the reported motion position is the center of mass
`wsum / tsum` over exactly the channels whose absolute difference exceeds
`DIFFERENCE_THRESHOLD` (NaN channels skipped); a position is produced
exactly when some channel exceeds the threshold, in which case the
denominator is strictly positive (no division by zero) and, for an
8-channel scan, the position lies in `[0, 7]`. -/
theorem motion_center_of_mass_spec :
    ∀ current_diffs : List (Option ℚ),
      current_diffs.length = NUM_CHANNELS →
      ((motionPosition current_diffs).isSome = true ↔
        ∃ d ∈ current_diffs, ∃ v, d = some v ∧ |v| > DIFFERENCE_THRESHOLD) ∧
      (∀ p, motionPosition current_diffs = some p →
        0 < tsum current_diffs ∧
        p = wsum 0 current_diffs / tsum current_diffs ∧
        0 ≤ p ∧ p ≤ 7) := by
  intro current_diffs hlen
  have hiff : (motionPosition current_diffs).isSome = true ↔
      hasSig current_diffs = true := by
    rw [motionPosition_eq]
    split_ifs with hc
    · simp [hc.1]
    · constructor
      · intro h
        simp at h
      · intro h
        exact absurd ⟨h, hasSig_tsum_pos _ h⟩ hc
  constructor
  · rw [hiff]
    exact hasSig_iff_exists current_diffs
  · intro p hp
    rw [motionPosition_eq] at hp
    split_ifs at hp with hc
    · obtain ⟨hsig, hpos⟩ := hc
      obtain hp' : wsum 0 current_diffs / tsum current_diffs = p := by injection hp
      refine ⟨hpos, hp'.symm, ?_, ?_⟩
      · rw [← hp']
        exact div_nonneg (wsum_nonneg _ 0) (le_of_lt hpos)
      · rw [← hp']
        rw [div_le_iff₀ hpos]
        have hb : wsum 0 current_diffs ≤ 7 * tsum current_diffs := by
          refine wsum_le_tsum current_diffs 0 7 ?_ (by norm_num)
          rw [hlen]
          norm_num [NUM_CHANNELS]
        linarith

/-- Witness for C5: diffs `[0.5, NaN, 0.05, 0, 0, 0, 0, 0.5]` give
position `(0*0.5 + 7*0.5)/(0.5+0.5) = 3.5`, inside `[0, 7]`; channel 2 is
below the threshold and excluded. -/
theorem motion_center_of_mass_spec_witness :
    ([some (1/2), none, some (1/20), some 0, some 0, some 0, some 0,
      some (1/2)] : List (Option ℚ)).length = NUM_CHANNELS ∧
    motionPosition [some (1/2), none, some (1/20), some 0, some 0, some 0,
      some 0, some (1/2)] = some (7/2) ∧
    (0 : ℚ) ≤ 7/2 ∧ (7/2 : ℚ) ≤ 7 := by
  have hlen : ([some (1/2), none, some (1/20), some 0, some 0, some 0, some 0,
      some (1/2)] : List (Option ℚ)).length = NUM_CHANNELS := by decide
  have hpos : motionPosition [some (1/2), none, some (1/20), some 0, some 0,
      some 0, some 0, some (1/2)] = some (7/2) := by
    rw [motionPosition_eq]
    norm_num [hasSig, tsum, wsum, DIFFERENCE_THRESHOLD, abs_of_nonneg]
  have hbounds := ((motion_center_of_mass_spec _ hlen).2 (7/2) hpos).2.2
  exact ⟨hlen, hpos, hbounds.1, hbounds.2⟩

/-! ## src/CSI_Camera/luckfox_b_camera_ops.py — verify_capture_on_target -/

/-- Drop a run of `[0-9;]` characters (the body of an ANSI colour escape). -/
def dropAnsiBody : List Char → List Char
  | [] => []
  | c :: rest => if c.isDigit || c = ';' then dropAnsiBody rest else c :: rest

/-- Try to match `\x5b[0-9;]*m` directly after an ESC character, returning
the remainder of the input on success. -/
def matchAnsiAfterEsc (l : List Char) : Option (List Char) :=
  match l with
  | [] => none
  | b :: rest =>
    if b = '[' then
      match dropAnsiBody rest with
      | [] => none
      | m :: rest2 => if m = 'm' then some rest2 else none
    else none

lemma dropAnsiBody_length_le : ∀ l : List Char, (dropAnsiBody l).length ≤ l.length := by
  intro l
  induction l with
  | nil => simp [dropAnsiBody]
  | cons c rest ih =>
    simp only [dropAnsiBody]
    split_ifs
    · exact le_trans ih (by simp)
    · simp

lemma matchAnsiAfterEsc_length :
    ∀ l r : List Char, matchAnsiAfterEsc l = some r → r.length < l.length := by
  intro l r h
  cases l with
  | nil => simp [matchAnsiAfterEsc] at h
  | cons b rest =>
    simp only [matchAnsiAfterEsc] at h
    split_ifs at h with hb
    · cases hd : dropAnsiBody rest with
      | nil => rw [hd] at h; simp at h
      | cons m rest2 =>
        rw [hd] at h
        change (if m = 'm' then some rest2 else none) = some r at h
        split_ifs at h with hm
        obtain hr : rest2 = r := by injection h
        subst hr
        have hlen := dropAnsiBody_length_le rest
        rw [hd] at hlen
        simp only [List.length_cons] at hlen ⊢
        omega

/-- `re.sub(r'\x1b\[[0-9;]*m', '', s)` as applied by
`verify_capture_on_target`: remove all (leftmost, non-overlapping) ANSI
colour escape sequences. -/
def stripAnsi (l : List Char) : List Char :=
  match l with
  | [] => []
  | c :: rest =>
    if c = '\x1b' then
      match hm : matchAnsiAfterEsc rest with
      | some rest2 => stripAnsi rest2
      | none => c :: stripAnsi rest
    else c :: stripAnsi rest
termination_by l.length
decreasing_by
  · have := matchAnsiAfterEsc_length rest rest2 hm
    simp only [List.length_cons]
    omega
  · simp only [List.length_cons]
    omega
  · simp only [List.length_cons]
    omega

/-- The whitespace characters of Python `str.split()` (ASCII fragment). -/
def isPySpaceChar (c : Char) : Bool :=
  c = ' ' || c = '\t' || c = '\n' || c = '\r' || c = '\x0b' || c = '\x0c'

/-- Helper for Python `str.split()` with no separator: split on runs of
whitespace, discarding empty fields; `cur` is the reversed current field. -/
def splitWsAux (cur : List Char) : List Char → List (List Char)
  | [] => if cur = [] then [] else [cur.reverse]
  | c :: rest =>
    if isPySpaceChar c then
      if cur = [] then splitWsAux [] rest
      else cur.reverse :: splitWsAux [] rest
    else splitWsAux (c :: cur) rest

/-- Python `cleaned_ls_output.split()`. -/
def splitWs (l : List Char) : List (List Char) :=
  splitWsAux [] l

/-- State after the first digit of a Python integer literal: digits with
single underscores allowed only between digits. -/
def digitsTail : List Char → Bool
  | [] => true
  | c :: rest =>
    if c.isDigit then digitsTail rest
    else if c = '_' then
      match rest with
      | [] => false
      | d :: rest2 => if d.isDigit then digitsTail rest2 else false
    else false

/-- Whether a sign-free token is accepted by Python `int()`:
a non-empty digit run with optional single underscores between digits. -/
def validDigits : List Char → Bool
  | [] => false
  | c :: rest => c.isDigit && digitsTail rest

/-- Numeric value of a digit token, ignoring underscore separators. -/
def digitsValue (l : List Char) : Nat :=
  (l.filter (fun c => c.isDigit)).foldl (fun acc c => acc * 10 + (c.toNat - 48)) 0

/-- Python `int(token)` on a whitespace-free token (ASCII): optional sign
followed by a valid digit run; `none` models `ValueError`. -/
def pyParseInt (l : List Char) : Option Int :=
  match l with
  | [] => none
  | c :: rest =>
    if c = '+' then
      if validDigits rest then some (digitsValue rest : Int) else none
    else if c = '-' then
      if validDigits rest then some (-(digitsValue rest : Int)) else none
    else if validDigits l then some (digitsValue l : Int) else none

/-- `"No such file or directory"`, as searched for in the cleaned output. -/
def noSuchFileMsg : List Char := "No such file or directory".toList

/-- `"cannot access"`, as searched for in the cleaned output. -/
def cannotAccessMsg : List Char := "cannot access".toList

/-- The `try: file_size = int(parts[4]); if file_size > 0: return file_size`
block of `verify_capture_on_target`, shared by the exact-match branch and
the fallback branch: parse failures and non-positive sizes give 0. -/
def sizeFromField (field : List Char) : Int :=
  match pyParseInt field with
  | some file_size => if file_size > 0 then file_size else 0
  | none => 0

/-- `verify_capture_on_target` from `luckfox_b_camera_ops.py`, modelled
from the raw `ls -l` output onward (`none` models the timeout / missing
prompt case).  The Python emptiness test `not cleaned_ls_output.strip()`
is modelled as the split producing no fields, which holds exactly when the
string is all whitespace. -/
def verify_capture_on_target (raw_ls_output : Option (List Char))
    (target_image_path : List Char) : Int :=
  match raw_ls_output with
  | none => 0
  | some raw =>
    let cleaned_ls_output := stripAnsi raw
    if noSuchFileMsg <:+: cleaned_ls_output ∨
        cannotAccessMsg <:+: cleaned_ls_output then 0
    else
      let parts := splitWs cleaned_ls_output
      if parts.isEmpty then 0
      else if 5 ≤ parts.length then
        if parts.getLast? = some target_image_path then
          sizeFromField (parts[4]?.getD [])
        else if target_image_path ∈ parts ∧ 8 < parts.length then
          sizeFromField (parts[4]?.getD [])
        else 0
      else 0

lemma sizeFromField_nonneg (field : List Char) : 0 ≤ sizeFromField field := by
  unfold sizeFromField
  cases hp : pyParseInt field with
  | none => simp
  | some v =>
    simp only []
    split_ifs with hv
    · omega
    · simp

lemma sizeFromField_pos_iff (field : List Char) (n : Int) (hn : 0 < n) :
    sizeFromField field = n ↔ pyParseInt field = some n := by
  unfold sizeFromField
  cases hp : pyParseInt field with
  | none =>
    simp only []
    constructor
    · intro h
      omega
    · intro h
      simp at h
  | some v =>
    simp only []
    split_ifs with hv
    · constructor
      · intro h
        rw [h]
      · intro h
        obtain hvn : v = n := by injection h
        rw [hvn]
    · constructor
      · intro h
        omega
      · intro h
        obtain hvn : v = n := by injection h
        omega

/-- C3: `verify_capture_on_target` returns a non-zero value `n` exactly
when the ANSI-cleaned output carries no error message, splits into at
least 5 whitespace-separated fields whose last field is the requested path
(or, as a fallback, the path occurs among more than 8 fields), and field 4
parses as the integer `n > 0`; in every other case — timeout, error
message, empty output, too few fields, filename mismatch, non-positive or
unparseable size — it returns 0 (the result is never negative). -/
theorem verify_capture_on_target_spec :
    (∀ target, verify_capture_on_target none target = 0) ∧
    (∀ s target n, 0 < n →
      (verify_capture_on_target (some s) target = n ↔
        (¬(noSuchFileMsg <:+: stripAnsi s) ∧ ¬(cannotAccessMsg <:+: stripAnsi s) ∧
         5 ≤ (splitWs (stripAnsi s)).length ∧
         ((splitWs (stripAnsi s)).getLast? = some target ∨
           (target ∈ splitWs (stripAnsi s) ∧ 8 < (splitWs (stripAnsi s)).length)) ∧
         pyParseInt ((splitWs (stripAnsi s))[4]?.getD []) = some n))) ∧
    (∀ s target, 0 ≤ verify_capture_on_target (some s) target) := by
  have hbody : ∀ s target, verify_capture_on_target (some s) target =
      (if noSuchFileMsg <:+: stripAnsi s ∨ cannotAccessMsg <:+: stripAnsi s then 0
       else if (splitWs (stripAnsi s)).isEmpty then 0
       else if 5 ≤ (splitWs (stripAnsi s)).length then
         if (splitWs (stripAnsi s)).getLast? = some target then
           sizeFromField ((splitWs (stripAnsi s))[4]?.getD [])
         else if target ∈ splitWs (stripAnsi s) ∧ 8 < (splitWs (stripAnsi s)).length then
           sizeFromField ((splitWs (stripAnsi s))[4]?.getD [])
         else 0
       else 0) := fun s target => rfl
  refine ⟨fun target => rfl, ?_, ?_⟩
  · intro s target n hn
    rw [hbody]
    split_ifs with herr hempty hlen hlast hfall
    · constructor
      · intro h
        omega
      · rintro ⟨hA, hB, -⟩
        exact absurd herr (by tauto)
    · constructor
      · intro h
        omega
      · rintro ⟨-, -, h5, -⟩
        rw [List.isEmpty_iff] at hempty
        rw [hempty] at h5
        simp at h5
    · rw [sizeFromField_pos_iff _ n hn]
      push_neg at herr
      constructor
      · intro hp
        exact ⟨herr.1, herr.2, hlen, Or.inl hlast, hp⟩
      · rintro ⟨-, -, -, -, hp⟩
        exact hp
    · rw [sizeFromField_pos_iff _ n hn]
      push_neg at herr
      constructor
      · intro hp
        exact ⟨herr.1, herr.2, hlen, Or.inr hfall, hp⟩
      · rintro ⟨-, -, -, -, hp⟩
        exact hp
    · constructor
      · intro h
        omega
      · rintro ⟨-, -, -, hdisj, -⟩
        rcases hdisj with hd | hd
        · exact absurd hd hlast
        · exact absurd hd hfall
    · constructor
      · intro h
        omega
      · rintro ⟨-, -, h5, -⟩
        exact absurd h5 hlen
  · intro s target
    rw [hbody]
    split_ifs <;> first | rfl | exact sizeFromField_nonneg _

/-- Witness for C3: the output `"a b c d 56 /t"` with target `"/t"` has 6
fields, the last equal to the target, and field 4 parses as 56 > 0, so the
size 56 is returned; the timeout case returns 0, and results are never
negative. -/
theorem verify_capture_on_target_spec_witness :
    verify_capture_on_target
      (some ['a', ' ', 'b', ' ', 'c', ' ', 'd', ' ', '5', '6', ' ', '/', 't'])
      ['/', 't'] = 56 ∧
    (0 : Int) < 56 ∧
    verify_capture_on_target none ['/', 't'] = 0 ∧
    0 ≤ verify_capture_on_target
      (some ['a', ' ', 'b', ' ', 'c', ' ', 'd', ' ', '5', '6', ' ', '/', 't'])
      ['/', 't'] := by
  have h56 : (0 : Int) < 56 := by decide
  have hclean : stripAnsi
      ['a', ' ', 'b', ' ', 'c', ' ', 'd', ' ', '5', '6', ' ', '/', 't'] =
      ['a', ' ', 'b', ' ', 'c', ' ', 'd', ' ', '5', '6', ' ', '/', 't'] := by
    simp [stripAnsi]
  have h1 := (verify_capture_on_target_spec.2.1
    ['a', ' ', 'b', ' ', 'c', ' ', 'd', ' ', '5', '6', ' ', '/', 't']
    ['/', 't'] 56 h56).mpr
    ⟨by rw [hclean]; decide, by rw [hclean]; decide, by rw [hclean]; decide,
      Or.inl (by rw [hclean]; decide), by rw [hclean]; decide⟩
  have h3 := verify_capture_on_target_spec.2.2
    ['a', ' ', 'b', ' ', 'c', ' ', 'd', ' ', '5', '6', ' ', '/', 't'] ['/', 't']
  exact ⟨h1, h56, verify_capture_on_target_spec.1 ['/', 't'], h3⟩

end LuckFox
